import Mathlib

/-!
Shallow embedding of the `todo-rs` task tracker (src/main.rs, src/task.rs).

Modelling choices:
* `std::time::Instant` creation timestamps are persisted through `serde_millis`
  as a millisecond count; we model the timestamp as that `Nat` directly.
* `BTreeMap<usize, Task>` is modelled as an association list sorted by key
  (strictly ascending); `lookupS`, `insertS`, `eraseS` mirror `get`, `insert`
  and `remove`; iteration order of the list is the map's ascending-key order.
* File/process effects: a run of the program is load → mutate → save; the
  on-disk state is a `FileState` (absent file, empty file, JSON task sequence,
  or malformed content) and a run ends in `RunOutcome.ok` or, for a panic
  or `.expect` failure, `RunOutcome.aborted` carrying the file state at abort.
* `print_tasks` in the source first prints a two-line header that depends only
  on the filter (modelled by `print_header`, which takes no store) and then one
  line per included task. `print_tasks` below models the per-task lines only;
  the complete printed output — header lines included — is `print_output`, and
  a `list` invocation with its complete output is `list_run_full`.
-/

namespace Todo

/-- Models `pub const PENDING: char = ' '` (task.rs). -/
def PENDING : Char := ' '

/-- Models `pub const COMPLETED: char = '✓'` (task.rs). -/
def COMPLETED : Char := '✓'

/-- Models `struct Task { time: Instant, description: String, status: char }` with
`time` in its serialized (millisecond) form. -/
structure Task where
  time : Nat
  description : String
  status : Char
deriving DecidableEq, Repr

/-- Models `Task::new(description)` (task.rs): status `PENDING`, time = now
(passed explicitly as `now`). -/
def Task.new (now : Nat) (description : String) : Task :=
  { time := now, description := description, status := PENDING }

/-- Models `Task::complete(&mut self)` (task.rs): sets `status = COMPLETED`. -/
def Task.complete (t : Task) : Task :=
  { t with status := COMPLETED }

/-- Models `impl Ord for Task` (task.rs): compares by `time` only. -/
def Task.cmp (a b : Task) : Ordering :=
  compare a.time b.time

/-- Models `impl PartialEq for Task` (task.rs): `self.time == other.time`. -/
def Task.eq (a b : Task) : Bool :=
  a.time == b.time

/-- The in-memory store: `BTreeMap<usize, Task>` as a key-sorted
association list. -/
abbrev Store := List (Nat × Task)

/-- Models `BTreeMap::get` on the sorted-association-list model. -/
def lookupS (k : Nat) : Store → Option Task
  | [] => none
  | (k', t) :: rest => if k = k' then some t else lookupS k rest

/-- Models `BTreeMap::insert` on the sorted-association-list model: replaces the
entry at an existing key, otherwise inserts keeping keys ascending. -/
def insertS (k : Nat) (v : Task) : Store → Store
  | [] => [(k, v)]
  | (k', t) :: rest =>
    if k < k' then (k, v) :: (k', t) :: rest
    else if k = k' then (k, v) :: rest
    else (k', t) :: insertS k v rest

/-- Models `BTreeMap::remove` on the sorted-association-list model. -/
def eraseS (k : Nat) : Store → Store
  | [] => []
  | (k', t) :: rest => if k = k' then rest else (k', t) :: eraseS k rest

/-- Models `tasks.values().cloned().collect()` — the records in ascending
identifier order, identifiers dropped. -/
def values (m : Store) : List Task :=
  m.map Prod.snd

/-- The loop body of `vec_to_map` (main.rs): insert each task at key `i`,
starting from `i` and incrementing. -/
def vec_to_map_go (i : Nat) : List Task → Store
  | [] => []
  | t :: ts => (i, t) :: vec_to_map_go (i + 1) ts

/-- Models `vec_to_map(tasks)` (main.rs): identifiers `1..N` assigned in sequence
order. -/
def vec_to_map (ts : List Task) : Store :=
  vec_to_map_go 1 ts

/-- Models `serialize_tasks` (main.rs) writes `serde_json::to_writer(file, &tasks)`
where `tasks` is `values` of the map: the persisted content is the record
sequence itself. -/
def serialize_tasks (m : Store) : List Task :=
  values m

/-- Models `enum Filter { None, Pending, Completed }` (main.rs). -/
inductive Filter where
  | none
  | pending
  | completed
deriving DecidableEq, Repr

/-- The filter match inside `print_tasks` (main.rs):
`Completed => status == COMPLETED, Pending => status == PENDING,
None => true`. -/
def statusMatch (fl : Filter) (t : Task) : Bool :=
  match fl with
  | .completed => t.status == COMPLETED
  | .pending => t.status == PENDING
  | .none => true

/-- Models `println!("{} - {} [{}]", id, task.description, task.status)`
(main.rs). -/
def formatLine (id : Nat) (t : Task) : String :=
  toString id ++ " - " ++ t.description ++ " [" ++ String.singleton t.status ++ "]"

/-- The per-task output lines of `print_tasks` (main.rs): iterate the map
(ascending key order), keep entries passing the filter, print one line each. -/
def print_tasks (m : Store) (fl : Filter) : List String :=
  (m.filter (fun p => statusMatch fl p.2)).map (fun p => formatLine p.1 p.2)

/-- The lowercased `Debug` name of a filter, as used in the listing header. -/
def filterName : Filter → String
  | .none => "none"
  | .pending => "pending"
  | .completed => "completed"

/-- The constant two-line header `print_tasks` prints before the task lines;
it depends only on the filter, never on the store. The separator repeats the
box-drawing character once per byte of the header (`header.len()` in Rust is
the UTF-8 byte length). -/
def print_header (fl : Filter) : List String :=
  let header := "Task (filter: " ++ filterName fl ++ ")"
  [header, String.mk (List.replicate header.utf8ByteSize '─')]

/-- The complete output of `print_tasks` (main.rs): the two-line header
followed by one line per included task. -/
def print_output (m : Store) (fl : Filter) : List String :=
  print_header fl ++ print_tasks m fl

/-- Models `add_task` (main.rs), the in-memory mutation: `key = tasks.len() + 1`,
insert a fresh task at that key. -/
def add_task (now : Nat) (description : String) (tasks : Store) : Store :=
  insertS (tasks.length + 1) (Task.new now description) tasks

/-- Models `remove_task` (main.rs), the in-memory mutation: `tasks.remove(&id)`
(a no-op when the key is absent). -/
def remove_task (id : Nat) (tasks : Store) : Store :=
  eraseS id tasks

/-- Models `complete_task` (main.rs), the in-memory mutation:
`tasks.get(&id).expect("Task not found")` — `none` models the panic on a
missing id, which happens before anything is written — then clone, complete,
re-insert at the same id. -/
def complete_task (id : Nat) (tasks : Store) : Option Store :=
  match lookupS id tasks with
  | Option.none => Option.none
  | some t => some (insertS id t.complete tasks)

/-- The observable on-disk state of the storage path. -/
inductive FileState where
  | absent
  | empty
  | json (ts : List Task)
  | malformed
deriving DecidableEq, Repr

/-- Models `deserialize_tasks` (main.rs): opens with `.read(true).write(true)
.create(true)` — so an absent file is created empty — then
`serde_json::from_reader`: EOF (empty content) yields an empty map,
well-formed content yields `vec_to_map`, malformed content panics
(`Option.none`, file content untouched). The returned `FileState` is the
file's state after the open. -/
def deserialize_tasks : FileState → Option (FileState × Store)
  | .absent => some (.empty, [])
  | .empty => some (.empty, [])
  | .json ts => some (.json ts, vec_to_map ts)
  | .malformed => Option.none

/-- The result of one whole program invocation: `ok` carries the final file
state and final in-memory store; `aborted` carries the file state at the
moment the process panicked. -/
inductive RunOutcome where
  | ok (file : FileState) (store : Store)
  | aborted (file : FileState)
deriving DecidableEq, Repr

/-- One `add` invocation: load, `add_task`, persist. -/
def add_run (now : Nat) (d : String) (fs : FileState) : RunOutcome :=
  match deserialize_tasks fs with
  | Option.none => .aborted fs
  | some (_, m) =>
    let m' := add_task now d m
    .ok (.json (serialize_tasks m')) m'

/-- One `remove` invocation: load, `remove_task`, persist. -/
def remove_run (id : Nat) (fs : FileState) : RunOutcome :=
  match deserialize_tasks fs with
  | Option.none => .aborted fs
  | some (_, m) =>
    let m' := remove_task id m
    .ok (.json (serialize_tasks m')) m'

/-- One `complete` invocation: load, `complete_task` (which panics on a
missing id before any write), persist on success. -/
def complete_run (id : Nat) (fs : FileState) : RunOutcome :=
  match deserialize_tasks fs with
  | Option.none => .aborted fs
  | some (f, m) =>
    match complete_task id m with
    | Option.none => .aborted f
    | some m' => .ok (.json (serialize_tasks m')) m'

/-- One `list` invocation: load, print; nothing is written. The second
component is the per-task output only (the header lines are constant; see
`list_run_full` for the complete output). -/
def list_run (fl : Filter) (fs : FileState) : RunOutcome × List String :=
  match deserialize_tasks fs with
  | Option.none => (.aborted fs, [])
  | some (f, m) => (.ok f m, print_tasks m fl)

/-- One `list` invocation with its complete printed output, the two header
lines included. A panic during load prints nothing. -/
def list_run_full (fl : Filter) (fs : FileState) : RunOutcome × List String :=
  match deserialize_tasks fs with
  | Option.none => (.aborted fs, [])
  | some (f, m) => (.ok f m, print_output m fl)

/-- A sequence of `add` invocations (each a full load/mutate/save run),
returning the final file state. -/
def run_adds : List (Nat × String) → FileState → FileState
  | [], fs => fs
  | (now, d) :: rest, fs =>
    match add_run now d fs with
    | .ok f _ => run_adds rest f
    | .aborted f => f

/-! ### Basic lemmas about the store model -/

theorem values_vec_go (ts : List Task) : ∀ i, values (vec_to_map_go i ts) = ts := by
  induction ts with
  | nil => intro i; rfl
  | cons t ts ih =>
    intro i
    simpa [vec_to_map_go, values] using ih (i + 1)

theorem values_vec_to_map (ts : List Task) : values (vec_to_map ts) = ts :=
  values_vec_go ts 1

theorem length_vec_go (ts : List Task) : ∀ i, (vec_to_map_go i ts).length = ts.length := by
  induction ts with
  | nil => intro i; rfl
  | cons t ts ih =>
    intro i
    simpa [vec_to_map_go] using ih (i + 1)

theorem lookup_vec_go_lt (ts : List Task) :
    ∀ i k, k < i → lookupS k (vec_to_map_go i ts) = Option.none := by
  induction ts with
  | nil => intro i k _; rfl
  | cons t ts ih =>
    intro i k hk
    have hne : k ≠ i := Nat.ne_of_lt hk
    simp only [vec_to_map_go, lookupS, if_neg hne]
    exact ih (i + 1) k (Nat.lt_succ_of_lt hk)

theorem lookup_vec_go (ts : List Task) :
    ∀ i j, lookupS (i + j) (vec_to_map_go i ts) = ts[j]? := by
  induction ts with
  | nil => intro i j; simp [vec_to_map_go, lookupS]
  | cons t ts ih =>
    intro i j
    cases j with
    | zero => simp [vec_to_map_go, lookupS]
    | succ j' =>
      have hne : i + (j' + 1) ≠ i := by omega
      have h1 : i + (j' + 1) = (i + 1) + j' := by omega
      simp only [vec_to_map_go, lookupS, if_neg hne]
      rw [h1, ih (i + 1) j']
      simp

theorem lookup_vec_to_map (ts : List Task) (j : Nat) :
    lookupS (j + 1) (vec_to_map ts) = ts[j]? := by
  have := lookup_vec_go ts 1 j
  simpa [vec_to_map, Nat.add_comm] using this

theorem lookup_vec_to_map_zero (ts : List Task) :
    lookupS 0 (vec_to_map ts) = Option.none :=
  lookup_vec_go_lt ts 1 0 Nat.one_pos

theorem lookup_vec_to_map_gt (ts : List Task) (k : Nat) (hk : ts.length < k) :
    lookupS k (vec_to_map ts) = Option.none := by
  obtain ⟨j, rfl⟩ : ∃ j, k = j + 1 := ⟨k - 1, by omega⟩
  rw [lookup_vec_to_map]
  exact List.getElem?_eq_none (by omega)

theorem insert_vec_go_append (v : Task) (ts : List Task) :
    ∀ i, insertS (i + ts.length) v (vec_to_map_go i ts) = vec_to_map_go i (ts ++ [v]) := by
  induction ts with
  | nil => intro i; simp [vec_to_map_go, insertS]
  | cons t ts ih =>
    intro i
    have h1 : ¬ (i + (t :: ts).length < i) := by simp
    have h2 : ¬ (i + (t :: ts).length = i) := by simp
    simp only [vec_to_map_go, insertS, if_neg h1, if_neg h2, List.cons_append]
    have h3 : i + (t :: ts).length = (i + 1) + ts.length := by
      simp [List.length_cons]; omega
    rw [h3, ih (i + 1)]
    rfl

theorem insert_vec_go_set (v : Task) (ts : List Task) :
    ∀ i j, j < ts.length →
      insertS (i + j) v (vec_to_map_go i ts) = vec_to_map_go i (ts.set j v) := by
  induction ts with
  | nil => intro i j hj; simp at hj
  | cons t ts ih =>
    intro i j hj
    cases j with
    | zero => simp [vec_to_map_go, insertS]
    | succ j' =>
      have h1 : ¬ (i + (j' + 1) < i) := by omega
      have h2 : ¬ (i + (j' + 1) = i) := by omega
      have h3 : i + (j' + 1) = (i + 1) + j' := by omega
      simp only [vec_to_map_go, insertS, if_neg h1, if_neg h2, List.set]
      rw [h3, ih (i + 1) j' (by simpa using hj)]

theorem lookup_erase_ne (k j : Nat) (h : j ≠ k) :
    ∀ m : Store, lookupS j (eraseS k m) = lookupS j m := by
  intro m
  induction m with
  | nil => rfl
  | cons p rest ih =>
    obtain ⟨k', t⟩ := p
    by_cases hk : k = k'
    · subst hk
      simp [eraseS, lookupS, h]
    · by_cases hj : j = k'
      · simp [eraseS, lookupS, hk, hj]
      · simp [eraseS, lookupS, hk, hj, ih]

theorem erase_of_lookup_none (k : Nat) :
    ∀ m : Store, lookupS k m = Option.none → eraseS k m = m := by
  intro m
  induction m with
  | nil => intro _; rfl
  | cons p rest ih =>
    obtain ⟨k', t⟩ := p
    intro h
    by_cases hk : k = k'
    · simp [lookupS, hk] at h
    · simp only [lookupS, if_neg hk] at h
      simp [eraseS, hk, ih h]

theorem lookup_erase_self_vec_go (ts : List Task) :
    ∀ i k, lookupS k (eraseS k (vec_to_map_go i ts)) = Option.none := by
  induction ts with
  | nil => intro i k; rfl
  | cons t ts ih =>
    intro i k
    by_cases hk : k = i
    · subst hk
      simp only [vec_to_map_go, eraseS, if_pos rfl]
      exact lookup_vec_go_lt ts (k + 1) k (Nat.lt_succ_self k)
    · simp only [vec_to_map_go, eraseS, if_neg hk, lookupS, if_neg hk]
      exact ih (i + 1) k

theorem vec_go_key_lb (ts : List Task) :
    ∀ i, ∀ p ∈ vec_to_map_go i ts, i ≤ p.1 := by
  induction ts with
  | nil => intro i p hp; simp [vec_to_map_go] at hp
  | cons t ts ih =>
    intro i p hp
    simp only [vec_to_map_go, List.mem_cons] at hp
    rcases hp with rfl | hp
    · exact Nat.le_refl i
    · exact Nat.le_of_succ_le (ih (i + 1) p hp)

theorem vec_go_sorted (ts : List Task) :
    ∀ i, List.Pairwise (fun a b : Nat × Task => a.1 < b.1) (vec_to_map_go i ts) := by
  induction ts with
  | nil => intro i; exact List.Pairwise.nil
  | cons t ts ih =>
    intro i
    refine List.Pairwise.cons ?_ (ih (i + 1))
    intro p hp
    exact Nat.lt_of_succ_le (vec_go_key_lb ts (i + 1) p hp)

theorem vec_go_getElem (ts : List Task) :
    ∀ i j, (vec_to_map_go i ts)[j]? = (ts[j]?).map (fun t => (i + j, t)) := by
  induction ts with
  | nil => intro i j; simp [vec_to_map_go]
  | cons t ts ih =>
    intro i j
    cases j with
    | zero => simp [vec_to_map_go]
    | succ j' =>
      have h1 : i + (j' + 1) = (i + 1) + j' := by omega
      simp [vec_to_map_go, ih (i + 1) j', h1]

/-! ### Lemmas about whole-program runs -/

theorem add_task_vec (now : Nat) (d : String) (ts : List Task) :
    add_task now d (vec_to_map ts) = vec_to_map (ts ++ [Task.new now d]) := by
  unfold add_task vec_to_map
  rw [length_vec_go ts 1, Nat.add_comm ts.length 1, insert_vec_go_append]

theorem add_run_json (now : Nat) (d : String) (ts : List Task) :
    add_run now d (.json ts) =
      .ok (.json (ts ++ [Task.new now d])) (vec_to_map (ts ++ [Task.new now d])) := by
  simp [add_run, deserialize_tasks, add_task_vec, serialize_tasks, values_vec_to_map]

theorem run_adds_json (items : List (Nat × String)) :
    ∀ ts, run_adds items (.json ts) =
      .json (ts ++ items.map (fun p => Task.new p.1 p.2)) := by
  induction items with
  | nil => intro ts; simp [run_adds]
  | cons p rest ih =>
    intro ts
    obtain ⟨now, d⟩ := p
    simp [run_adds, add_run_json, ih]

theorem add_run_empty (now : Nat) (d : String) :
    add_run now d .empty = .ok (.json [Task.new now d]) [(1, Task.new now d)] := rfl

theorem run_adds_empty_cons (now : Nat) (d : String) (rest : List (Nat × String)) :
    run_adds ((now, d) :: rest) .empty =
      .json (Task.new now d :: rest.map (fun p => Task.new p.1 p.2)) := by
  simp only [run_adds, add_run_empty]
  simpa using run_adds_json rest [Task.new now d]

theorem print_none_vec (ts : List Task) :
    print_tasks (vec_to_map ts) Filter.none =
      (vec_to_map ts).map (fun p => formatLine p.1 p.2) := by
  simp [print_tasks, statusMatch]

theorem print_none_length (ts : List Task) :
    (print_tasks (vec_to_map ts) Filter.none).length = ts.length := by
  rw [print_none_vec]
  simp [vec_to_map, length_vec_go]

theorem print_none_getElem (ts : List Task) (j : Nat) :
    (print_tasks (vec_to_map ts) Filter.none)[j]? =
      (ts[j]?).map (fun t => formatLine (j + 1) t) := by
  rw [print_none_vec, List.getElem?_map, vec_to_map, vec_go_getElem]
  cases ts[j]? with
  | none => rfl
  | some t => simp [Nat.add_comm]

/-! ### Claim theorems -/

/-- C1: on a loaded store with dense identifiers `1..N` (`vec_to_map ts`,
`N = ts.length`), `add` inserts a fresh `Pending` record with the given
description at identifier `N + 1` — a key not previously present — leaves
every existing identifier's record unchanged, keeps the identifiers dense
`1..N+1`, and persists the full store. -/
theorem C1_add_fresh_id (ts : List Task) (now : Nat) (d : String) :
    (Task.new now d).status = PENDING ∧
    (Task.new now d).description = d ∧
    lookupS (ts.length + 1) (vec_to_map ts) = Option.none ∧
    add_task now d (vec_to_map ts) = vec_to_map (ts ++ [Task.new now d]) ∧
    lookupS (ts.length + 1) (add_task now d (vec_to_map ts)) = some (Task.new now d) ∧
    (∀ k, k ≤ ts.length → lookupS k (add_task now d (vec_to_map ts)) = lookupS k (vec_to_map ts)) ∧
    add_run now d (.json ts) =
      .ok (.json (ts ++ [Task.new now d])) (add_task now d (vec_to_map ts)) := by
  refine ⟨rfl, rfl, ?_, add_task_vec now d ts, ?_, ?_, ?_⟩
  · exact lookup_vec_to_map_gt ts (ts.length + 1) (Nat.lt_succ_self _)
  · rw [add_task_vec, lookup_vec_to_map]
    simp
  · intro k hk
    rw [add_task_vec]
    cases k with
    | zero => rw [lookup_vec_to_map_zero, lookup_vec_to_map_zero]
    | succ j =>
      rw [lookup_vec_to_map, lookup_vec_to_map]
      have hj : j < ts.length := hk
      rw [List.getElem?_append, if_pos hj]
  · rw [add_run_json, add_task_vec]

/-- C1 witness at a concrete input: adding to the one-task store. -/
theorem C1_add_fresh_id_witness :
    lookupS 1 (add_task 5 "b" (vec_to_map [Task.new 0 "a"])) =
      lookupS 1 (vec_to_map [Task.new 0 "a"]) :=
  (C1_add_fresh_id [Task.new 0 "a"] 5 "b").2.2.2.2.2.1 1 (by decide)

/-- C2: saving a store with identifiers `1..N` writes exactly the record
sequence in ascending identifier order (identifiers dropped), and reloading
that sequence reproduces the store: identifiers re-derived `1..N` in sequence
order, every identifier's record (description, status) identical, and the
sequence of creation-time markers — hence their relative order — preserved. -/
theorem C2_round_trip (ts : List Task) :
    serialize_tasks (vec_to_map ts) = ts ∧
    vec_to_map (serialize_tasks (vec_to_map ts)) = vec_to_map ts ∧
    (∀ k, lookupS k (vec_to_map (serialize_tasks (vec_to_map ts))) = lookupS k (vec_to_map ts)) ∧
    (serialize_tasks (vec_to_map ts)).map Task.time = ts.map Task.time ∧
    (∀ j, lookupS (j + 1) (vec_to_map ts) = ts[j]?) := by
  have hs : serialize_tasks (vec_to_map ts) = ts := values_vec_to_map ts
  refine ⟨hs, by rw [hs], by rw [hs]; intro k; rfl, by rw [hs], ?_⟩
  intro j
  exact lookup_vec_to_map ts j

theorem getElem_set_self (ts : List Task) (v : Task) :
    ∀ j, j < ts.length → (ts.set j v)[j]? = some v := by
  induction ts with
  | nil => intro j hj; simp at hj
  | cons t ts ih =>
    intro j hj
    cases j with
    | zero => simp
    | succ j' => simpa using ih j' (by simpa using hj)

/-- C3: completing an identifier absent from the loaded store panics via
`.expect("Task not found")` before `serialize_tasks` runs: the run aborts
and the file still holds the original record sequence. -/
theorem C3_complete_missing (ts : List Task) (id : Nat)
    (h : lookupS id (vec_to_map ts) = Option.none) :
    complete_task id (vec_to_map ts) = Option.none ∧
    complete_run id (.json ts) = .aborted (.json ts) := by
  constructor
  · simp [complete_task, h]
  · simp [complete_run, deserialize_tasks, complete_task, h]

/-- C3 witness: completing id 2 in a one-task store aborts without writing. -/
theorem C3_complete_missing_witness :
    complete_run 2 (FileState.json [Task.new 0 "a"]) =
      .aborted (FileState.json [Task.new 0 "a"]) :=
  (C3_complete_missing [Task.new 0 "a"] 2 (by decide)).2

/-- C4: removing an absent identifier never aborts and persists the loaded
store unchanged; removing a present identifier persists the store with just
that entry gone, every other identifier's record untouched. -/
theorem C4_remove_semantics (ts : List Task) (id : Nat) :
    (lookupS id (vec_to_map ts) = Option.none →
      remove_run id (.json ts) = .ok (.json ts) (vec_to_map ts)) ∧
    (∀ t, lookupS id (vec_to_map ts) = some t →
      remove_run id (.json ts) =
        .ok (.json (serialize_tasks (remove_task id (vec_to_map ts))))
          (remove_task id (vec_to_map ts)) ∧
      lookupS id (remove_task id (vec_to_map ts)) = Option.none ∧
      (∀ j, j ≠ id → lookupS j (remove_task id (vec_to_map ts)) = lookupS j (vec_to_map ts))) := by
  constructor
  · intro h
    have he : remove_task id (vec_to_map ts) = vec_to_map ts :=
      erase_of_lookup_none id (vec_to_map ts) h
    simp [remove_run, deserialize_tasks, serialize_tasks, he, values_vec_to_map]
  · intro t _
    refine ⟨rfl, ?_, ?_⟩
    · exact lookup_erase_self_vec_go ts 1 id
    · intro j hj
      exact lookup_erase_ne id j hj (vec_to_map ts)

/-- C4 witness: removing absent id 2 rewrites the same content; removing
present id 1 leaves id 1 unmapped. -/
theorem C4_remove_semantics_witness :
    remove_run 2 (FileState.json [Task.new 0 "a"]) =
      .ok (.json [Task.new 0 "a"]) (vec_to_map [Task.new 0 "a"]) ∧
    lookupS 1 (remove_task 1 (vec_to_map [Task.new 0 "a", Task.new 1 "b"])) = Option.none :=
  ⟨(C4_remove_semantics [Task.new 0 "a"] 2).1 (by decide),
   ((C4_remove_semantics [Task.new 0 "a", Task.new 1 "b"] 1).2 (Task.new 0 "a") (by decide)).2.1⟩

/-- C5: `complete` on a present identifier succeeds, stores the completed
record (status `COMPLETED`) at the same identifier; completing the
already-completed record is status-preserving (`Task.complete` is idempotent),
a second `complete` of the same id yields the very same store with no error,
and this holds both within one load and across two persisted runs. -/
theorem C5_complete_idempotent (ts : List Task) (id : Nat) (t : Task)
    (h : lookupS id (vec_to_map ts) = some t) :
    complete_task id (vec_to_map ts) = some (insertS id t.complete (vec_to_map ts)) ∧
    lookupS id (insertS id t.complete (vec_to_map ts)) = some t.complete ∧
    (t.complete).status = COMPLETED ∧
    (t.complete).complete = t.complete ∧
    complete_task id (insertS id t.complete (vec_to_map ts)) =
      some (insertS id t.complete (vec_to_map ts)) ∧
    complete_run id (.json ts) =
      .ok (.json (serialize_tasks (insertS id t.complete (vec_to_map ts))))
        (insertS id t.complete (vec_to_map ts)) ∧
    complete_run id (.json (serialize_tasks (insertS id t.complete (vec_to_map ts)))) =
      .ok (.json (serialize_tasks (insertS id t.complete (vec_to_map ts))))
        (insertS id t.complete (vec_to_map ts)) := by
  have h0 := h
  cases id with
  | zero => rw [lookup_vec_to_map_zero] at h; cases h
  | succ j =>
    rw [lookup_vec_to_map] at h
    have hj : j < ts.length := by
      by_contra hc
      rw [List.getElem?_eq_none (by omega)] at h
      cases h
    have hins : insertS (j + 1) t.complete (vec_to_map ts) =
        vec_to_map (ts.set j t.complete) := by
      rw [show j + 1 = 1 + j from Nat.add_comm j 1]
      exact insert_vec_go_set t.complete ts 1 j hj
    have hc1 : complete_task (j + 1) (vec_to_map ts) =
        some (insertS (j + 1) t.complete (vec_to_map ts)) := by
      simp [complete_task, h0]
    have hc2 : lookupS (j + 1) (insertS (j + 1) t.complete (vec_to_map ts)) =
        some t.complete := by
      rw [hins, lookup_vec_to_map]
      exact getElem_set_self ts t.complete j hj
    have hset : (ts.set j t.complete).set j t.complete = ts.set j t.complete := by
      rw [List.set_set]
    have hins2 : insertS (j + 1) t.complete (insertS (j + 1) t.complete (vec_to_map ts)) =
        insertS (j + 1) t.complete (vec_to_map ts) := by
      have base : insertS (1 + j) t.complete (vec_to_map (ts.set j t.complete)) =
          vec_to_map ((ts.set j t.complete).set j t.complete) :=
        insert_vec_go_set t.complete (ts.set j t.complete) 1 j (by simpa using hj)
      rw [hins, show j + 1 = 1 + j from Nat.add_comm j 1, base, hset]
    have hc5 : complete_task (j + 1) (insertS (j + 1) t.complete (vec_to_map ts)) =
        some (insertS (j + 1) t.complete (vec_to_map ts)) := by
      simp only [complete_task, hc2]
      rw [show (t.complete).complete = t.complete from rfl, hins2]
    have hser : serialize_tasks (insertS (j + 1) t.complete (vec_to_map ts)) =
        ts.set j t.complete := by
      rw [hins]
      exact values_vec_to_map _
    refine ⟨hc1, hc2, rfl, rfl, hc5, ?_, ?_⟩
    · simp [complete_run, deserialize_tasks, hc1]
    · rw [hser]
      simp only [complete_run, deserialize_tasks]
      rw [← hins]
      simp only [hc5, hser]

/-- C5 witness: completing id 1 of a one-task store succeeds and yields the
re-inserted completed record. -/
theorem C5_complete_idempotent_witness :
    complete_task 1 (vec_to_map [Task.new 0 "a"]) =
      some (insertS 1 (Task.complete (Task.new 0 "a")) (vec_to_map [Task.new 0 "a"])) :=
  (C5_complete_idempotent [Task.new 0 "a"] 1 (Task.new 0 "a") (by decide)).1

theorem lookup_of_mem_vec_go (ts : List Task) :
    ∀ i k t, (k, t) ∈ vec_to_map_go i ts → lookupS k (vec_to_map_go i ts) = some t := by
  induction ts with
  | nil => intro i k t h; simp [vec_to_map_go] at h
  | cons u us ih =>
    intro i k t h
    simp only [vec_to_map_go, List.mem_cons, Prod.mk.injEq] at h
    rcases h with ⟨rfl, rfl⟩ | h
    · simp [lookupS]
    · by_cases hk : k = i
      · exfalso
        have := vec_go_key_lb us (i + 1) (k, t) h
        omega
      · simp only [vec_to_map_go, lookupS, if_neg hk]
        exact ih (i + 1) k t h

theorem getElem_cons_cons (a b : String) (l : List String) (j : Nat) :
    (a :: b :: l)[j + 2]? = l[j]? := by
  show (a :: b :: l)[(j + 1) + 1]? = l[j]?
  rw [List.getElem?_cons_succ, List.getElem?_cons_succ]

/-- C6 counterexample: `print_tasks` always prints its two header lines first,
so after one `add` from empty storage, `list` with filter `none` outputs three
lines, not exactly one; likewise the §8 `list --filter pending` outputs three
lines and is not the single line `1 - write spec [ ]`. -/
theorem C6_adds_then_list_counterexample :
    ((list_run_full Filter.none (run_adds [(0, "buy milk")] FileState.empty)).2).length ≠ 1 ∧
    ((list_run_full Filter.pending (FileState.json [Task.new 1 "write spec"])).2).length = 3 ∧
    (list_run_full Filter.pending (FileState.json [Task.new 1 "write spec"])).2 ≠
      ["1 - write spec [ ]"] := by
  refine ⟨by decide, rfl, by decide⟩

/-- C6 (amended): after any sequence of `add` runs starting from empty
storage, `list` with filter `none` prints the constant two-line header
followed by exactly one task line per add — `N + 2` output lines in total,
the task lines carrying identifiers `1..N` in add order — and in the §8
scenario (add "buy milk", add "write spec", complete 1, remove 1, reload,
list pending) the output is exactly the header followed by the single task
line `1 - write spec [ ]`, three lines in total. -/
theorem C6_adds_then_list (items : List (Nat × String)) :
    ((list_run_full Filter.none (run_adds items FileState.empty)).2).length
        = items.length + 2 ∧
    (list_run_full Filter.none (run_adds items FileState.empty)).2 =
      print_header Filter.none ++ (list_run Filter.none (run_adds items FileState.empty)).2 ∧
    (∀ j, ((list_run_full Filter.none (run_adds items FileState.empty)).2)[j + 2]? =
      ((items.map (fun p => Task.new p.1 p.2))[j]?).map (fun t => formatLine (j + 1) t)) ∧
    add_run 0 "buy milk" FileState.empty =
      .ok (.json [Task.new 0 "buy milk"]) [(1, Task.new 0 "buy milk")] ∧
    add_run 1 "write spec" (.json [Task.new 0 "buy milk"]) =
      .ok (.json [Task.new 0 "buy milk", Task.new 1 "write spec"])
        [(1, Task.new 0 "buy milk"), (2, Task.new 1 "write spec")] ∧
    complete_run 1 (.json [Task.new 0 "buy milk", Task.new 1 "write spec"]) =
      .ok (.json [(Task.new 0 "buy milk").complete, Task.new 1 "write spec"])
        [(1, (Task.new 0 "buy milk").complete), (2, Task.new 1 "write spec")] ∧
    remove_run 1 (.json [(Task.new 0 "buy milk").complete, Task.new 1 "write spec"]) =
      .ok (.json [Task.new 1 "write spec"]) [(2, Task.new 1 "write spec")] ∧
    (list_run_full Filter.pending (.json [Task.new 1 "write spec"])).2 =
      ["Task (filter: pending)", String.mk (List.replicate 22 '─'),
        "1 - write spec [ ]"] := by
  refine ⟨?_, ?_, ?_, by decide, by decide, by decide, by decide, by decide⟩
  · cases items with
    | nil => rfl
    | cons p rest =>
      obtain ⟨now, d⟩ := p
      rw [run_adds_empty_cons]
      show (list_run_full Filter.none
        (.json (((now, d) :: rest).map (fun p => Task.new p.1 p.2)))).2.length = _
      simp only [list_run_full, deserialize_tasks, print_output, List.length_append]
      rw [print_none_length, show (print_header Filter.none).length = 2 from rfl]
      simp only [List.length_map, List.length_cons]
      omega
  · cases items with
    | nil => rfl
    | cons p rest =>
      obtain ⟨now, d⟩ := p
      rw [run_adds_empty_cons]
      rfl
  · intro j
    cases items with
    | nil =>
      show (print_output [] Filter.none)[j + 2]? = _
      simp [print_output, print_header, print_tasks, getElem_cons_cons]
    | cons p rest =>
      obtain ⟨now, d⟩ := p
      rw [run_adds_empty_cons]
      show (list_run_full Filter.none
        (.json (((now, d) :: rest).map (fun p => Task.new p.1 p.2)))).2[j + 2]? = _
      simp only [list_run_full, deserialize_tasks, print_output, print_header,
        filterName, List.cons_append, List.nil_append, getElem_cons_cons]
      exact print_none_getElem _ j

/-- C7: load builds identifiers `1..N` in sequence order; an absent or empty
file loads as the empty store (the absent file becoming an empty one); no
identifier outside `1..N` is mapped; malformed non-empty content is fatal,
yielding no store at all. -/
theorem C7_load_semantics (ts : List Task) :
    deserialize_tasks FileState.absent = some (FileState.empty, []) ∧
    deserialize_tasks FileState.empty = some (FileState.empty, []) ∧
    deserialize_tasks (FileState.json ts) = some (FileState.json ts, vec_to_map ts) ∧
    (∀ j, lookupS (j + 1) (vec_to_map ts) = ts[j]?) ∧
    lookupS 0 (vec_to_map ts) = Option.none ∧
    (∀ k, ts.length < k → lookupS k (vec_to_map ts) = Option.none) ∧
    deserialize_tasks FileState.malformed = Option.none :=
  ⟨rfl, rfl, rfl, lookup_vec_to_map ts, lookup_vec_to_map_zero ts,
    lookup_vec_to_map_gt ts, rfl⟩

/-- C7 witness: identifier 3 is unmapped after loading a one-record file. -/
theorem C7_load_semantics_witness :
    lookupS 3 (vec_to_map [Task.new 0 "a"]) = Option.none :=
  (C7_load_semantics [Task.new 0 "a"]).2.2.2.2.2.1 3 (by decide)

/-- C8: listing iterates the loaded store in ascending identifier order,
prints exactly the entries whose status matches the filter (`none` keeps
all), every output line originates from a matching entry (excluded tasks
print nothing), and the run leaves the file content untouched. -/
theorem C8_list_filter (ts : List Task) (fl : Filter) :
    list_run fl (.json ts) =
      (.ok (.json ts) (vec_to_map ts), print_tasks (vec_to_map ts) fl) ∧
    List.Pairwise (fun a b : Nat × Task => a.1 < b.1) (vec_to_map ts) ∧
    print_tasks (vec_to_map ts) fl =
      ((vec_to_map ts).filter (fun p => statusMatch fl p.2)).map
        (fun p => formatLine p.1 p.2) ∧
    print_tasks (vec_to_map ts) Filter.none =
      (vec_to_map ts).map (fun p => formatLine p.1 p.2) ∧
    (∀ s ∈ print_tasks (vec_to_map ts) fl,
      ∃ k t, lookupS k (vec_to_map ts) = some t ∧ statusMatch fl t = true ∧
        s = formatLine k t) := by
  refine ⟨rfl, vec_go_sorted ts 1, rfl, print_none_vec ts, ?_⟩
  intro s hs
  simp only [print_tasks, List.mem_map] at hs
  obtain ⟨p, hp, rfl⟩ := hs
  have hmatch : statusMatch fl p.2 = true := by simpa using List.of_mem_filter hp
  exact ⟨p.1, p.2, lookup_of_mem_vec_go ts 1 p.1 p.2 (List.mem_of_mem_filter hp),
    hmatch, rfl⟩

/-- C8 witness: the pending-filter line of a one-pending-task store traces
back to a matching entry of the store. -/
theorem C8_list_filter_witness :
    ∃ k t, lookupS k (vec_to_map [Task.new 0 "a"]) = some t ∧
      statusMatch Filter.pending t = true ∧ "1 - a [ ]" = formatLine k t :=
  (C8_list_filter [Task.new 0 "a"] Filter.pending).2.2.2.2 "1 - a [ ]" (by decide)

/-- C9: `Task` comparison looks only at `time` (description and status of
either side can be replaced freely), and `Task` equality holds exactly when
the `time` fields are equal, consistently with the comparison. -/
theorem C9_ordering_by_time (a b : Task) :
    (∀ d1 s1 d2 s2, Task.cmp { a with description := d1, status := s1 }
        { b with description := d2, status := s2 } = Task.cmp a b) ∧
    (Task.eq a b = true ↔ a.time = b.time) ∧
    (∀ d1 s1 d2 s2, Task.eq { a with description := d1, status := s1 }
        { b with description := d2, status := s2 } = Task.eq a b) ∧
    (Task.cmp a b = Ordering.eq ↔ Task.eq a b = true) := by
  refine ⟨fun _ _ _ _ => rfl, ?_, fun _ _ _ _ => rfl, ?_⟩
  · simp [Task.eq]
  · simp [Task.cmp, Task.eq, Nat.compare_eq_eq]

/-- C9 witness: records with equal times but different content are equal. -/
theorem C9_ordering_by_time_witness :
    Task.eq (Task.new 3 "a") (Task.new 3 "b") = true :=
  (C9_ordering_by_time (Task.new 3 "a") (Task.new 3 "b")).2.1.mpr rfl

/-- C10: `deserialize_tasks` opens the storage path with create mode, so on
an absent file every operation — the read-only `list` included — leaves an
empty file behind: `list` returns the empty store with the file now empty,
`complete` aborts with the file now empty, and `remove`/`add` then overwrite
it with the serialized result. -/
theorem C10_open_creates_file (fl : Filter) (id now : Nat) (d : String) :
    deserialize_tasks FileState.absent = some (FileState.empty, []) ∧
    list_run fl FileState.absent = (.ok FileState.empty [], []) ∧
    complete_run id FileState.absent = .aborted FileState.empty ∧
    remove_run id FileState.absent = .ok (.json []) [] ∧
    add_run now d FileState.absent = .ok (.json [Task.new now d]) [(1, Task.new now d)] :=
  ⟨rfl, rfl, rfl, rfl, rfl⟩

end Todo
